import Mathlib

/-!
Verification of the openpiv window-deformation PIV pipeline and the
polynomial camera projection.

The core pipeline module (`windef.py`) is exercised by the repository's
tests (`test_windef_detailed.py`) but its source is not part of this tree,
so the pipeline components — grid partitioning, mask handling,
deformation-field interpolation, window deformation and the multipass
orchestrator — are modelled from the specification, with numeric arrays
embedded over the rationals (a total model: every value is a finite
rational).  The polynomial calibration projection
(`openpiv/calibration/poly_model/_projection.py`) is embedded directly
from its source.
-/

set_option autoImplicit false
set_option linter.unusedVariables false

deriving instance DecidableEq for Except

namespace OpenPIV

/-- Modelled from the spec: the grid/field shape for one pass of
`windef.get_field_shape` — `floor((dim - window_size) / (window_size -
overlap)) + 1` per axis (rows from the first frame dimension, columns from
the second). -/
def get_field_shape (imageSize : Nat × Nat) (ws ov : Nat) : Nat × Nat :=
  ((imageSize.1 - ws) / (ws - ov) + 1, (imageSize.2 - ws) / (ws - ov) + 1)

/-- Modelled from the spec: the window-center pixel coordinate of grid
index `k` along one axis — windows of size `ws` tile the frame with step
`ws - ov`, window `k` covering pixels `[k*(ws-ov), k*(ws-ov)+ws)`, and the
centre pixel sitting `ws / 2` into the window. -/
def centerCoord (ws ov k : Nat) : Nat :=
  k * (ws - ov) + ws / 2

/-- A rows-by-columns array built from an entry function, as a list of
row lists. -/
def mkGrid {α : Type} (rows cols : Nat) (f : Nat → Nat → α) : List (List α) :=
  (List.range rows).map (fun i => (List.range cols).map (f i))

/-- A two-dimensional list array has `rc.1` rows, each of length `rc.2`. -/
def hasShape {α : Type} (a : List (List α)) (rc : Nat × Nat) : Prop :=
  a.length = rc.1 ∧ ∀ r ∈ a, r.length = rc.2

instance {α : Type} (a : List (List α)) (rc : Nat × Nat) :
    Decidable (hasShape a rc) := by
  unfold hasShape; infer_instance

theorem mkGrid_shape {α : Type} (rows cols : Nat) (f : Nat → Nat → α) :
    hasShape (mkGrid rows cols f) (rows, cols) := by
  constructor
  · simp [mkGrid]
  · intro r hr
    simp only [mkGrid, List.mem_map, List.mem_range] at hr
    obtain ⟨i, _, rfl⟩ := hr
    simp

theorem getD_of_lt {α : Type} (l : List α) (d : α) (i : Nat)
    (h : i < l.length) : l.getD i d = l.get ⟨i, h⟩ := by
  simp [List.getD, List.getElem?_eq_getElem h, List.get_eq_getElem]

theorem mkGrid_getD {α : Type} (rows cols : Nat) (f : Nat → Nat → α)
    (d : α) (i j : Nat) (hi : i < rows) (hj : j < cols) :
    ((mkGrid rows cols f).getD i []).getD j d = f i j := by
  have h1 : i < (mkGrid rows cols f).length := by simp [mkGrid, hi]
  rw [getD_of_lt _ _ _ h1]
  simp only [mkGrid, List.get_eq_getElem, List.getElem_map, List.getElem_range]
  have h2 : j < ((List.range cols).map (f i)).length := by simp [hj]
  rw [getD_of_lt _ _ _ h2]
  simp

/-- Modelled from the spec: a displacement-field container that either is a
plain numeric array (no validity channel) or is validity-tagged (a masked
array: numeric data plus a boolean per-entry invalidity mask). -/
inductive MaskedField where
  | plain (data : List (List ℚ))
  | masked (data : List (List ℚ)) (mask : List (List Bool))
deriving DecidableEq

/-- Whether the container carries a validity channel. -/
def MaskedField.isMasked : MaskedField → Bool
  | MaskedField.plain _ => false
  | MaskedField.masked _ _ => true

/-- The numeric data of a displacement container. -/
def MaskedField.dataOf : MaskedField → List (List ℚ)
  | MaskedField.plain d => d
  | MaskedField.masked d _ => d

/-- The invalidity mask of a displacement container (empty for a plain
array). -/
def MaskedField.maskOf : MaskedField → List (List Bool)
  | MaskedField.plain _ => []
  | MaskedField.masked _ m => m

/-- Modelled from the spec: the error taxonomy of the pipeline —
configuration errors (unknown deformation method, bad window/overlap) and
contract violations (a carried-forward field without a validity channel). -/
inductive PIVError where
  | configuration (msg : String)
  | contractViolation (msg : String)
deriving DecidableEq

/-- Modelled from the spec: one-dimensional interpolation over a list of
(coordinate, value) nodes.  Order 0 is nearest-neighbour; every other
order is modelled as piecewise-linear with constant extrapolation beyond
the end nodes (all spline orders agree on the constant-field behaviour the
spec constrains). -/
def interp1 (order : Nat) : List (ℚ × ℚ) → ℚ → ℚ
  | [], _ => 0
  | [(_, v0)], _ => v0
  | (x0, v0) :: (x1, v1) :: rest, t =>
    if order = 0 then
      if t ≤ (x0 + x1) / 2 then v0 else interp1 order ((x1, v1) :: rest) t
    else
      if t ≤ x0 then v0
      else if t ≤ x1 then v0 + (v1 - v0) * (t - x0) / (x1 - x0)
      else interp1 order ((x1, v1) :: rest) t

/-- Modelled from the spec: tensor-product interpolation of a sparse grid
field (node row coordinates `ys`, node column coordinates `xs`, values
`grid`) at the pixel coordinate `(yc, xc)`: each grid row is interpolated
along x, then the per-row results are interpolated along y. -/
def interp2 (order : Nat) (ys xs : List ℚ) (grid : List (List ℚ))
    (yc xc : ℚ) : ℚ :=
  interp1 order
    ((List.zip ys grid).map (fun p => (p.1, interp1 order (List.zip xs p.2) xc)))
    yc

/-- Modelled from the spec: the per-pair intensity-derived dynamic pixel
mask — a pixel is masked when its intensity exceeds the configured
threshold. -/
def dynamicMask (frame : Nat → Nat → ℚ) (thr : ℚ) : Nat → Nat → Bool :=
  fun i j => decide (thr < frame i j)

/-- Modelled from the spec: the settings fields read by the multipass
deformation step (per-pass window sizes and overlaps, the
deformation-method string, and the static/dynamic masking options of
`PIVSettings`). -/
structure PIVSettings where
  windowsizes : List Nat
  overlap : List Nat
  deformation_method : String
  static_mask : Option (Nat → Nat → Bool)
  dynamic_masking : Bool
  dynamic_masking_threshold : ℚ

/-- Modelled from the spec: the combined pixel mask — the static mask
OR-combined with the per-pair dynamic mask when enabled, `none` exactly
when neither masking kind is requested. -/
def pixelMask (s : PIVSettings) (frame_b : Nat → Nat → ℚ) :
    Option (Nat → Nat → Bool) :=
  match s.static_mask, s.dynamic_masking with
  | none, false => none
  | some m, false => some m
  | none, true => some (dynamicMask frame_b s.dynamic_masking_threshold)
  | some m, true =>
    some (fun i j => m i j || dynamicMask frame_b s.dynamic_masking_threshold i j)

/-- Modelled from the spec: the tuple returned by one pass — grid
coordinate arrays, validity-tagged displacement components, the grid-level
mask, and the quality (signal-to-noise) field. -/
structure MultipassOutput where
  x : List (List ℚ)
  y : List (List ℚ)
  u : MaskedField
  v : MaskedField
  grid_mask : List (List Bool)
  s2n : List (List ℚ)
deriving DecidableEq

/-- Modelled from the spec: the computational core of one deformation pass
(steps 1-5 of the Multipass Orchestrator transition).  The grid is rebuilt
at this pass's window size and overlap; the carried-forward field is
resampled onto the new grid (order-1 interpolation over the previous
grid's first coordinate row/column, as an initial estimate); the external
Correlation Estimator `corr` supplies the residual displacement and
quality score per window of the deformed pair; the initial estimate is
added back; and the grid-level mask is derived by testing each window's
centre pixel against the pixel mask.  The returned validity mask is
rebuilt from the pixel mask alone — the carried-forward field's own mask
is not propagated. -/
def passCore (corr : Nat → Nat → ℚ × ℚ × ℚ) (frameShape : Nat × Nat)
    (ws ov : Nat) (x y u v : List (List ℚ))
    (pmask : Option (Nat → Nat → Bool)) : MultipassOutput :=
  let rows := (get_field_shape frameShape ws ov).1
  let cols := (get_field_shape frameShape ws ov).2
  let xsOld := x.getD 0 []
  let ysOld := y.map (fun row => row.getD 0 0)
  let uInit := fun i j =>
    interp2 1 ysOld xsOld u ((centerCoord ws ov i : ℚ)) ((centerCoord ws ov j : ℚ))
  let vInit := fun i j =>
    interp2 1 ysOld xsOld v ((centerCoord ws ov i : ℚ)) ((centerCoord ws ov j : ℚ))
  let gm : Nat → Nat → Bool := fun i j =>
    match pmask with
    | none => false
    | some m => m (centerCoord ws ov i) (centerCoord ws ov j)
  { x := mkGrid rows cols (fun _ j => (centerCoord ws ov j : ℚ))
    y := mkGrid rows cols (fun i _ => (centerCoord ws ov i : ℚ))
    u := MaskedField.masked
      (mkGrid rows cols (fun i j => uInit i j + (corr i j).1))
      (mkGrid rows cols gm)
    v := MaskedField.masked
      (mkGrid rows cols (fun i j => vInit i j + (corr i j).2.1))
      (mkGrid rows cols gm)
    grid_mask := mkGrid rows cols gm
    s2n := mkGrid rows cols (fun i j => (corr i j).2.2) }

/-- Modelled from the spec: `windef.multipass_img_deform`.  At pass entry
the validity-channel contract on the carried-forward field is enforced
first (a plain array raises `Expected masked array`); the
deformation-method string is then dispatched, and anything other than
`symmetric` or `second image` fails with the configuration error
`Deformation method is not valid` before any resampling happens; only then
does the pass computation run, so an error leaves no partial output. -/
def multipass_img_deform (corr : Nat → Nat → ℚ × ℚ × ℚ)
    (frame_a frame_b : Nat → Nat → ℚ) (frameShape : Nat × Nat)
    (iteration : Nat) (x y : List (List ℚ)) (u v : MaskedField)
    (s : PIVSettings) : Except PIVError MultipassOutput :=
  match u, v with
  | MaskedField.masked ud _, MaskedField.masked vd _ =>
    if s.deformation_method = "symmetric" ∨ s.deformation_method = "second image" then
      Except.ok (passCore corr frameShape (s.windowsizes.getD iteration 0)
        (s.overlap.getD iteration 0) x y ud vd (pixelMask s frame_b))
    else
      Except.error (PIVError.configuration "Deformation method is not valid")
  | _, _ => Except.error (PIVError.contractViolation "Expected masked array")

/-- Modelled from the spec: `windef.first_pass` — the initial pass on the
undeformed pair, with no prior field and no pixel masking, producing the
grid coordinates and the correlation estimator's displacement and quality
fields at the given window size and overlap. -/
def first_pass (corr : Nat → Nat → ℚ × ℚ × ℚ) (frameShape : Nat × Nat)
    (ws ov : Nat) : MultipassOutput :=
  passCore corr frameShape ws ov [] [] [] [] none

/-- Modelled from the spec: the orchestrator loop — one deformation pass
per remaining (window size, overlap) configuration, each pass rebuilding
the grid for its own configuration and carrying the previous field
forward.  `corrs k` is the external correlation result for pass `k`. -/
def runPasses (corrs : Nat → Nat → Nat → ℚ × ℚ × ℚ) (frameShape : Nat × Nat) :
    Nat → List (Nat × Nat) → MultipassOutput → MultipassOutput
  | _, [], f => f
  | k, (ws, ov) :: rest, f =>
    runPasses corrs frameShape (k + 1) rest
      (passCore (corrs k) frameShape ws ov f.x f.y f.u.dataOf f.v.dataOf none)

/-- Modelled from the spec: `windef.simple_multipass` — run the first pass
at the first configuration, then one deformation pass per remaining
configuration; the final output is the last pass's. -/
def simple_multipass (corrs : Nat → Nat → Nat → ℚ × ℚ × ℚ)
    (frameShape : Nat × Nat) : List (Nat × Nat) → MultipassOutput
  | [] => ⟨[], [], MaskedField.plain [], MaskedField.plain [], [], []⟩
  | (ws, ov) :: rest =>
    runPasses corrs frameShape 1 rest (first_pass (corrs 0) frameShape ws ov)

/-- The four coordinate/displacement arrays of a pass output all have the
given grid shape. -/
def outputShape (o : MultipassOutput) (rc : Nat × Nat) : Prop :=
  hasShape o.x rc ∧ hasShape o.y rc ∧ hasShape o.u.dataOf rc ∧ hasShape o.v.dataOf rc

instance (o : MultipassOutput) (rc : Nat × Nat) : Decidable (outputShape o rc) := by
  unfold outputShape; infer_instance

theorem passCore_shape (corr : Nat → Nat → ℚ × ℚ × ℚ) (frameShape : Nat × Nat)
    (ws ov : Nat) (x y u v : List (List ℚ)) (pmask : Option (Nat → Nat → Bool)) :
    outputShape (passCore corr frameShape ws ov x y u v pmask)
      (get_field_shape frameShape ws ov) := by
  refine ⟨?_, ?_, ?_, ?_⟩ <;>
    simpa [passCore, MaskedField.dataOf] using
      mkGrid_shape (get_field_shape frameShape ws ov).1
        (get_field_shape frameShape ws ov).2 _

theorem runPasses_shape (corrs : Nat → Nat → Nat → ℚ × ℚ × ℚ)
    (frameShape : Nat × Nat) :
    ∀ (l : List (Nat × Nat)) (k : Nat) (f : MultipassOutput) (hne : l ≠ []),
      outputShape (runPasses corrs frameShape k l f)
        (get_field_shape frameShape (l.getLast hne).1 (l.getLast hne).2) := by
  intro l
  induction l with
  | nil => intro k f hne; exact absurd rfl hne
  | cons p rest ih =>
    intro k f hne
    obtain ⟨ws, ov⟩ := p
    cases rest with
    | nil =>
      simpa [runPasses, List.getLast] using
        passCore_shape (corrs k) frameShape ws ov f.x f.y f.u.dataOf f.v.dataOf none
    | cons q rest2 =>
      have h := ih (k + 1)
        (passCore (corrs k) frameShape ws ov f.x f.y f.u.dataOf f.v.dataOf none)
        (by simp)
      simpa [runPasses, List.getLast_cons] using h

/-- C1: For every frame shape and `(window_size, overlap)` with
`overlap < window_size ≤ min(frame_shape)`, the grid/field shape equals
`floor((dim - window_size) / (window_size - overlap)) + 1` per axis, the
`x`, `y`, `u`, `v` arrays of a pass all share that shape, and after a
multipass run the final grid shape is that formula applied to the last
pass's `(window_size, overlap)` only — never to an earlier pass's (the
final shape is a function of `passes.getLast` alone, for every correlator
and every earlier configuration). -/
theorem grid_shape_formula
    (corr : Nat → Nat → ℚ × ℚ × ℚ) (corrs : Nat → Nat → Nat → ℚ × ℚ × ℚ)
    (frameShape : Nat × Nat) (ws ov : Nat) (passes : List (Nat × Nat))
    (hov : ov < ws) (hws : ws ≤ min frameShape.1 frameShape.2)
    (hne : passes ≠ []) :
    outputShape (first_pass corr frameShape ws ov)
      (get_field_shape frameShape ws ov) ∧
    outputShape (simple_multipass corrs frameShape passes)
      (get_field_shape frameShape (passes.getLast hne).1 (passes.getLast hne).2) := by
  constructor
  · exact passCore_shape corr frameShape ws ov [] [] [] [] none
  · cases passes with
    | nil => exact absurd rfl hne
    | cons p rest =>
      obtain ⟨w0, o0⟩ := p
      cases rest with
      | nil =>
        simpa [simple_multipass, runPasses, List.getLast] using
          passCore_shape (corrs 0) frameShape w0 o0 [] [] [] [] none
      | cons q rest2 =>
        have h := runPasses_shape corrs frameShape (q :: rest2) 1
          (first_pass (corrs 0) frameShape w0 o0) (by simp)
        simpa [simple_multipass, List.getLast_cons] using h

/-- Witness for C1 at frame shape 32×32 with passes (16, 8) then (8, 4):
the first-pass field is 3×3 and the final field is 7×7, the last pass's
formula. -/
theorem grid_shape_formula_witness :
    (8 : Nat) < 16 ∧ (16 : Nat) ≤ min 32 32 ∧
    ([((16 : Nat), (8 : Nat)), (8, 4)] : List (Nat × Nat)) ≠ [] ∧
    (outputShape (first_pass (fun _ _ => (0, 0, 1)) (32, 32) 16 8)
        (get_field_shape (32, 32) 16 8) ∧
      outputShape (simple_multipass (fun _ _ _ => (0, 0, 1)) (32, 32)
          [(16, 8), (8, 4)])
        (get_field_shape (32, 32) 8 4)) :=
  ⟨by decide, by decide, by decide,
    grid_shape_formula (fun _ _ => (0, 0, 1)) (fun _ _ _ => (0, 0, 1))
      (32, 32) 16 8 [(16, 8), (8, 4)] (by decide) (by decide) (by decide)⟩

/-- Modelled from the spec: `windef.create_deformation_field` — interpolate
the sparse per-window displacement field (`u`, `v` over node columns `xs`
and node rows `ys`) onto every pixel of a frame of shape `(H, W)`,
returning the dense pixel coordinate grids and the dense displacement
components, each with the frame's shape. -/
def create_deformation_field (H W : Nat) (xs ys : List ℚ)
    (u v : List (List ℚ)) (order : Nat) :
    List (List ℚ) × List (List ℚ) × List (List ℚ) × List (List ℚ) :=
  ( mkGrid H W (fun _ j => (j : ℚ))
  , mkGrid H W (fun i _ => (i : ℚ))
  , mkGrid H W (fun i j => interp2 order ys xs u (i : ℚ) (j : ℚ))
  , mkGrid H W (fun i j => interp2 order ys xs v (i : ℚ) (j : ℚ)) )

theorem interp1_const (order : Nat) (c t : ℚ) :
    ∀ l : List (ℚ × ℚ), l ≠ [] → (∀ p ∈ l, p.2 = c) →
      interp1 order l t = c := by
  intro l
  induction l with
  | nil => intro h; exact absurd rfl h
  | cons hd tl ih =>
    intro _ hval
    obtain ⟨x0, v0⟩ := hd
    cases tl with
    | nil =>
      simpa [interp1] using hval (x0, v0) (by simp)
    | cons hd2 tl2 =>
      obtain ⟨x1, v1⟩ := hd2
      have h0 : v0 = c := hval (x0, v0) (by simp)
      have h1 : v1 = c := hval (x1, v1) (by simp)
      have hrec : interp1 order ((x1, v1) :: tl2) t = c := by
        refine ih (by simp) ?_
        intro p hp
        exact hval p (List.mem_cons_of_mem _ hp)
      subst h0 h1
      by_cases ho : order = 0
      · subst ho
        by_cases ht : t ≤ (x0 + x1) / 2
        · simp [interp1, ht]
        · simp [interp1, ht, hrec]
      · by_cases ht0 : t ≤ x0
        · simp [interp1, ho, ht0]
        · by_cases ht1 : t ≤ x1
          · simp [interp1, ho, ht0, ht1]
          · simp [interp1, ho, ht0, ht1, hrec]

theorem interp2_const (order : Nat) (c yc xc : ℚ) (ys xs : List ℚ)
    (grid : List (List ℚ)) (hys : ys ≠ []) (hxs : xs ≠ []) (hg : grid ≠ [])
    (hrow : ∀ row ∈ grid, row ≠ [])
    (hval : ∀ row ∈ grid, ∀ a ∈ row, a = c) :
    interp2 order ys xs grid yc xc = c := by
  unfold interp2
  refine interp1_const order c yc _ ?_ ?_
  · simp only [ne_eq, List.map_eq_nil_iff, List.zip_eq_nil_iff]
    push_neg
    exact ⟨hys, hg⟩
  · intro p hp
    simp only [List.mem_map] at hp
    obtain ⟨⟨yv, row⟩, hmem, rfl⟩ := hp
    have hrowg : row ∈ grid := (List.of_mem_zip hmem).2
    refine interp1_const order c xc _ ?_ ?_
    · simp only [ne_eq, List.zip_eq_nil_iff]
      push_neg
      exact ⟨hxs, hrow row hrowg⟩
    · intro q hq
      exact hval row hrowg q.2 (List.of_mem_zip hq).2

/-- C2: For every spatially constant sparse displacement field (`u = du`,
`v = dv` at every grid point), the Deformation Field Builder's dense
interpolated field at any pixel equals `(du, dv)` within a tolerance of
0.1 pixel (here exactly, hence within tolerance), for interpolation orders
0 and 1, and the four returned dense arrays all have the frame's shape. -/
theorem deformation_field_const (H W : Nat) (xs ys : List ℚ)
    (u v : List (List ℚ)) (du dv : ℚ) (order : Nat)
    (horder : order = 0 ∨ order = 1)
    (hxs : xs ≠ []) (hys : ys ≠ [])
    (hu : u ≠ []) (hur : ∀ row ∈ u, row ≠ [])
    (huc : ∀ row ∈ u, ∀ a ∈ row, a = du)
    (hv : v ≠ []) (hvr : ∀ row ∈ v, row ≠ [])
    (hvc : ∀ row ∈ v, ∀ a ∈ row, a = dv) :
    hasShape (create_deformation_field H W xs ys u v order).1 (H, W) ∧
    hasShape (create_deformation_field H W xs ys u v order).2.1 (H, W) ∧
    hasShape (create_deformation_field H W xs ys u v order).2.2.1 (H, W) ∧
    hasShape (create_deformation_field H W xs ys u v order).2.2.2 (H, W) ∧
    ∀ i j, i < H → j < W →
      |(((create_deformation_field H W xs ys u v order).2.2.1.getD i []).getD j 0)
          - du| ≤ 1 / 10 ∧
      |(((create_deformation_field H W xs ys u v order).2.2.2.getD i []).getD j 0)
          - dv| ≤ 1 / 10 := by
  refine ⟨mkGrid_shape H W _, mkGrid_shape H W _, mkGrid_shape H W _,
    mkGrid_shape H W _, ?_⟩
  intro i j hi hj
  constructor
  · rw [show (create_deformation_field H W xs ys u v order).2.2.1
        = mkGrid H W (fun i j => interp2 order ys xs u (i : ℚ) (j : ℚ)) from rfl,
      mkGrid_getD H W _ 0 i j hi hj,
      interp2_const order du (i : ℚ) (j : ℚ) ys xs u hys hxs hu hur huc]
    simp
  · rw [show (create_deformation_field H W xs ys u v order).2.2.2
        = mkGrid H W (fun i j => interp2 order ys xs v (i : ℚ) (j : ℚ)) from rfl,
      mkGrid_getD H W _ 0 i j hi hj,
      interp2_const order dv (i : ℚ) (j : ℚ) ys xs v hys hxs hv hvr hvc]
    simp

/-- Witness for C2: a 2×2 grid with constant displacement (2, 3) over a
4×4 frame, interpolation order 1; the dense field at pixel (1, 1) is
within 0.1 of the constants and all four arrays are 4×4. -/
theorem deformation_field_const_witness :
    ((1 : Nat) = 0 ∨ (1 : Nat) = 1) ∧
    ([(10 : ℚ), 20] ≠ []) ∧
    ([[(2 : ℚ), 2], [2, 2]] ≠ []) ∧
    (hasShape (create_deformation_field 4 4 [10, 20] [10, 20]
        [[2, 2], [2, 2]] [[3, 3], [3, 3]] 1).1 (4, 4) ∧
      hasShape (create_deformation_field 4 4 [10, 20] [10, 20]
        [[2, 2], [2, 2]] [[3, 3], [3, 3]] 1).2.1 (4, 4) ∧
      hasShape (create_deformation_field 4 4 [10, 20] [10, 20]
        [[2, 2], [2, 2]] [[3, 3], [3, 3]] 1).2.2.1 (4, 4) ∧
      hasShape (create_deformation_field 4 4 [10, 20] [10, 20]
        [[2, 2], [2, 2]] [[3, 3], [3, 3]] 1).2.2.2 (4, 4) ∧
      ∀ i j, i < 4 → j < 4 →
        |(((create_deformation_field 4 4 [10, 20] [10, 20]
            [[2, 2], [2, 2]] [[3, 3], [3, 3]] 1).2.2.1.getD i []).getD j 0)
            - 2| ≤ 1 / 10 ∧
        |(((create_deformation_field 4 4 [10, 20] [10, 20]
            [[2, 2], [2, 2]] [[3, 3], [3, 3]] 1).2.2.2.getD i []).getD j 0)
            - 3| ≤ 1 / 10) :=
  ⟨Or.inr rfl, by decide, by decide,
    deformation_field_const 4 4 [10, 20] [10, 20]
      [[2, 2], [2, 2]] [[3, 3], [3, 3]] 2 3 1
      (Or.inr rfl) (by decide) (by decide) (by decide) (by decide)
      (by decide) (by decide) (by decide) (by decide)⟩

/-- C3: For every deformation-method value other than `symmetric` and
`second image`, the multipass deformation step fails with the
configuration error `Deformation method is not valid`; the `Except.error`
result carries no field data, so no partial resampling output is
produced. -/
theorem invalid_deformation_method (corr : Nat → Nat → ℚ × ℚ × ℚ)
    (fa fb : Nat → Nat → ℚ) (fs : Nat × Nat) (it : Nat)
    (x y : List (List ℚ)) (ud vd : List (List ℚ))
    (um vm : List (List Bool)) (s : PIVSettings)
    (h1 : s.deformation_method ≠ "symmetric")
    (h2 : s.deformation_method ≠ "second image") :
    multipass_img_deform corr fa fb fs it x y
      (MaskedField.masked ud um) (MaskedField.masked vd vm) s
      = Except.error (PIVError.configuration "Deformation method is not valid") := by
  simp [multipass_img_deform, h1, h2]

/-- Witness for C3: the method string `invalid` is rejected with the
configuration error. -/
theorem invalid_deformation_method_witness :
    ("invalid" ≠ "symmetric") ∧ ("invalid" ≠ "second image") ∧
    multipass_img_deform (fun _ _ => (0, 0, 1)) (fun _ _ => 0) (fun _ _ => 0)
      (32, 32) 1 [] []
      (MaskedField.masked [[0]] [[false]]) (MaskedField.masked [[0]] [[false]])
      ⟨[16], [8], "invalid", none, false, 0⟩
      = Except.error (PIVError.configuration "Deformation method is not valid") :=
  ⟨by decide, by decide,
    invalid_deformation_method (fun _ _ => (0, 0, 1)) (fun _ _ => 0)
      (fun _ _ => 0) (32, 32) 1 [] [] [[0]] [[0]] [[false]] [[false]]
      ⟨[16], [8], "invalid", none, false, 0⟩ (by decide) (by decide)⟩

/-- C4: A carried-forward displacement field lacking a validity channel
(a plain numeric array in either component) makes a pass with index > 0
fail with the contract violation `Expected masked array`, with no silent
acceptance; a field carrying a validity channel (with a supported
deformation method) is accepted and produces an output. -/
theorem carried_field_contract (corr : Nat → Nat → ℚ × ℚ × ℚ)
    (fa fb : Nat → Nat → ℚ) (fs : Nat × Nat) (it : Nat)
    (x y : List (List ℚ)) (u v : MaskedField) (s : PIVSettings)
    (hit : 0 < it) :
    (u.isMasked = false ∨ v.isMasked = false →
      multipass_img_deform corr fa fb fs it x y u v s
        = Except.error (PIVError.contractViolation "Expected masked array")) ∧
    (u.isMasked = true → v.isMasked = true →
      s.deformation_method = "symmetric" →
      ∃ out, multipass_img_deform corr fa fb fs it x y u v s = Except.ok out) := by
  constructor
  · intro h
    cases u with
    | plain ud => cases v <;> simp [multipass_img_deform]
    | masked ud um =>
      cases v with
      | plain vd => simp [multipass_img_deform]
      | masked vd vm => simp [MaskedField.isMasked] at h
  · intro hu hv hm
    cases u with
    | plain ud => simp [MaskedField.isMasked] at hu
    | masked ud um =>
      cases v with
      | plain vd => simp [MaskedField.isMasked] at hv
      | masked vd vm =>
        refine ⟨passCore corr fs (s.windowsizes.getD it 0)
          (s.overlap.getD it 0) x y ud vd (pixelMask s fb), ?_⟩
        simp [multipass_img_deform, hm]

/-- Witness for C4: at pass index 1, a plain array is rejected with the
contract violation while a masked array with the `symmetric` method is
accepted. -/
theorem carried_field_contract_witness :
    (0 < 1) ∧
    multipass_img_deform (fun _ _ => (0, 0, 1)) (fun _ _ => 0) (fun _ _ => 0)
      (32, 32) 1 [] [] (MaskedField.plain [[2]]) (MaskedField.plain [[3]])
      ⟨[16, 16], [8, 8], "symmetric", none, false, 0⟩
      = Except.error (PIVError.contractViolation "Expected masked array") ∧
    ∃ out, multipass_img_deform (fun _ _ => (0, 0, 1)) (fun _ _ => 0)
      (fun _ _ => 0) (32, 32) 1 [] []
      (MaskedField.masked [[2]] [[false]]) (MaskedField.masked [[3]] [[false]])
      ⟨[16, 16], [8, 8], "symmetric", none, false, 0⟩ = Except.ok out :=
  ⟨by decide,
    (carried_field_contract (fun _ _ => (0, 0, 1)) (fun _ _ => 0) (fun _ _ => 0)
      (32, 32) 1 [] [] (MaskedField.plain [[2]]) (MaskedField.plain [[3]])
      ⟨[16, 16], [8, 8], "symmetric", none, false, 0⟩ (by decide)).1
      (Or.inl rfl),
    (carried_field_contract (fun _ _ => (0, 0, 1)) (fun _ _ => 0) (fun _ _ => 0)
      (32, 32) 1 [] [] (MaskedField.masked [[2]] [[false]])
      (MaskedField.masked [[3]] [[false]])
      ⟨[16, 16], [8, 8], "symmetric", none, false, 0⟩ (by decide)).2
      rfl rfl rfl⟩

/-- Modelled from the spec: bilinear sampling of an integer-indexed image
at a rational coordinate — the resampling kernel the Window Deformer uses
at interpolation order 1. -/
def bilinearSample (f : ℤ → ℤ → ℚ) (yc xc : ℚ) : ℚ :=
  let i := ⌊yc⌋
  let j := ⌊xc⌋
  let fy := yc - (i : ℚ)
  let fx := xc - (j : ℚ)
  (1 - fy) * ((1 - fx) * f i j + fx * f i (j + 1))
    + fy * ((1 - fx) * f (i + 1) j + fx * f (i + 1) (j + 1))

/-- Modelled from the spec: `windef.deform_windows` — resample the frame
at pixel `(i, j)` from the source coordinate `(i + vt i j, j + ut i j)`;
the sample point is offset by `+`(dense displacement), so image content in
the deformed frame moves by the negative of the displacement. -/
def deform_windows (frame : ℤ → ℤ → ℚ) (ut vt : ℤ → ℤ → ℚ) : ℤ → ℤ → ℚ :=
  fun i j => bilinearSample frame ((i : ℚ) + vt i j) ((j : ℚ) + ut i j)

theorem bilinearSample_int (f : ℤ → ℤ → ℚ) (i j : ℤ) :
    bilinearSample f (i : ℚ) (j : ℚ) = f i j := by
  simp [bilinearSample, Int.floor_intCast]

/-- C5: The Window Deformer resamples in the direction opposite to the
displacement: under a constant displacement `(u0, v0)` the deformed frame
at pixel `(i, j)` equals the source at `(i + v0, j + u0)`, so a bright
square moves by `(-u0, -v0)` (left by `u0` pixels for positive `u0`); and
applying the deformer with displacement `+u0` to a frame whose content had
moved forward by `+u0` recovers the original frame — sampling the source
at the negated motion undoes it. -/
theorem deform_windows_shift (frame : ℤ → ℤ → ℚ) (u0 v0 : ℤ) (i j : ℤ) :
    deform_windows frame (fun _ _ => (u0 : ℚ)) (fun _ _ => (v0 : ℚ)) i j
      = frame (i + v0) (j + u0) ∧
    deform_windows (fun p q => frame p (q - u0)) (fun _ _ => (u0 : ℚ))
        (fun _ _ => 0) i j
      = frame i j := by
  constructor
  · have h : deform_windows frame (fun _ _ => (u0 : ℚ)) (fun _ _ => (v0 : ℚ)) i j
        = bilinearSample frame ((i + v0 : ℤ) : ℚ) ((j + u0 : ℤ) : ℚ) := by
      simp [deform_windows]
    rw [h, bilinearSample_int]
  · have h : deform_windows (fun p q => frame p (q - u0)) (fun _ _ => (u0 : ℚ))
        (fun _ _ => 0) i j
        = bilinearSample (fun p q => frame p (q - u0)) ((i : ℤ) : ℚ) ((j + u0 : ℤ) : ℚ) := by
      simp [deform_windows]
    rw [h, bilinearSample_int]
    simp

/-- Modelled from the spec: a synthetic scene whose two frames differ by a
pure uniform translation is represented by each frame's translation offset
`(x, y)`; the Window Deformer applied with a uniform displacement `d`
moves the content by `-d` (the resampling direction is the negative of the
displacement). -/
def deformUniform (phase d : ℚ × ℚ) : ℚ × ℚ :=
  (phase.1 - d.1, phase.2 - d.2)

/-- Modelled from the spec: the external Correlation Estimator's boundary
contract on a uniform-shift pair — it reports the relative motion from the
first frame to the second, i.e. the difference of the two translation
offsets. -/
def correlateUniform (pa pb : ℚ × ℚ) : ℚ × ℚ :=
  (pb.1 - pa.1, pb.2 - pa.2)

/-- Modelled from the spec: one deformation pass on a uniform-shift pair
(first frame at offset `(0,0)`, second at offset `shift`) with initial
estimate `u`: `symmetric` resamples each frame by half the field in
opposite directions, `second image` resamples only the second frame by the
full field; the correlation measures the residual motion and the initial
estimate is added back.  Any other method fails with the configuration
error. -/
def uniformShiftPass (method : String) (shift u : ℚ × ℚ) :
    Except PIVError (ℚ × ℚ) :=
  if method = "symmetric" then
    let pa := deformUniform (0, 0) (-u.1 / 2, -u.2 / 2)
    let pb := deformUniform shift (u.1 / 2, u.2 / 2)
    let r := correlateUniform pa pb
    Except.ok (u.1 + r.1, u.2 + r.2)
  else if method = "second image" then
    let pb := deformUniform shift u
    let r := correlateUniform (0, 0) pb
    Except.ok (u.1 + r.1, u.2 + r.2)
  else Except.error (PIVError.configuration "Deformation method is not valid")

/-- C6: On a synthetic pair related by a known uniform shift
`(shift_u, shift_v)`, the deformation pass with method `symmetric` and the
pass with method `second image` both recover exactly `(shift_u, shift_v)`
(for every initial estimate), hence both are allclose to the true shift
within every nonnegative threshold and the two methods agree on
uniform-shift inputs. -/
theorem deformation_methods_equivalent (shift u : ℚ × ℚ) :
    uniformShiftPass "symmetric" shift u = Except.ok shift ∧
    uniformShiftPass "second image" shift u = Except.ok shift ∧
    uniformShiftPass "symmetric" shift u = uniformShiftPass "second image" shift u := by
  obtain ⟨s1, s2⟩ := shift
  obtain ⟨u1, u2⟩ := u
  have e1 : uniformShiftPass "symmetric" (s1, s2) (u1, u2) = Except.ok (s1, s2) := by
    simp only [uniformShiftPass, deformUniform, correlateUniform]
    rw [if_pos trivial]
    simp only [Except.ok.injEq, Prod.mk.injEq]
    constructor <;> ring
  have e2 : uniformShiftPass "second image" (s1, s2) (u1, u2) = Except.ok (s1, s2) := by
    simp only [uniformShiftPass, deformUniform, correlateUniform]
    rw [if_pos trivial, if_neg (by decide : ¬("second image" = "symmetric"))]
    simp only [Except.ok.injEq, Prod.mk.injEq]
    constructor <;> ring
  exact ⟨e1, e2, e1.trans e2.symm⟩

/-- C7: For every static pixel mask, every grid point whose correlation
window lies entirely within the masked region is marked invalid in the
grid-level mask of the pass output, regardless of the quality score the
Correlation Estimator returns (`corr` is arbitrary): the grid-level mask
tests the window's centre pixel, and the centre lies inside the window. -/
theorem static_mask_invalidates (corr : Nat → Nat → ℚ × ℚ × ℚ)
    (fa fb : Nat → Nat → ℚ) (fs : Nat × Nat) (it : Nat)
    (x y : List (List ℚ)) (ud vd : List (List ℚ)) (um vm : List (List Bool))
    (s : PIVSettings) (m : Nat → Nat → Bool) (ws ov i j : Nat)
    (hws' : s.windowsizes.getD it 0 = ws) (hov' : s.overlap.getD it 0 = ov)
    (hsm : s.static_mask = some m) (hdyn : s.dynamic_masking = false)
    (hmeth : s.deformation_method = "symmetric") (hws : 0 < ws)
    (hi : i < (get_field_shape fs ws ov).1)
    (hj : j < (get_field_shape fs ws ov).2)
    (hcover : ∀ p q, i * (ws - ov) ≤ p → p < i * (ws - ov) + ws →
        j * (ws - ov) ≤ q → q < j * (ws - ov) + ws → m p q = true) :
    ∃ out, multipass_img_deform corr fa fb fs it x y
        (MaskedField.masked ud um) (MaskedField.masked vd vm) s = Except.ok out ∧
      (out.grid_mask.getD i []).getD j false = true := by
  have hpm : pixelMask s fb = some m := by
    unfold pixelMask
    rw [hsm, hdyn]
  refine ⟨passCore corr fs ws ov x y ud vd (pixelMask s fb), ?_, ?_⟩
  · simp only [multipass_img_deform, hmeth]
    rw [if_pos (Or.inl trivial), hws', hov']
  · have hgm : (passCore corr fs ws ov x y ud vd (pixelMask s fb)).grid_mask
        = mkGrid (get_field_shape fs ws ov).1 (get_field_shape fs ws ov).2
          (fun a b =>
            match pixelMask s fb with
            | none => false
            | some mm => mm (centerCoord ws ov a) (centerCoord ws ov b)) := rfl
    rw [hgm, mkGrid_getD _ _ _ _ i j hi hj, hpm]
    refine hcover (centerCoord ws ov i) (centerCoord ws ov j)
      (Nat.le_add_right _ _) ?_ (Nat.le_add_right _ _) ?_ <;>
      exact Nat.add_lt_add_left (Nat.div_lt_self hws one_lt_two) _

/-- Witness for C7: an 8×8 frame, one pass at window 4, overlap 2, an
all-true static mask (so the window at grid point (0,0) lies entirely in
the masked region): the output's grid-level mask is set there. -/
theorem static_mask_invalidates_witness :
    ∃ out, multipass_img_deform (fun _ _ => (0, 0, 1)) (fun _ _ => 0)
        (fun _ _ => 0) (8, 8) 0 [] []
        (MaskedField.masked [[0]] [[false]]) (MaskedField.masked [[0]] [[false]])
        ⟨[4], [2], "symmetric", some (fun _ _ => true), false, 0⟩ = Except.ok out ∧
      (out.grid_mask.getD 0 []).getD 0 false = true :=
  static_mask_invalidates (fun _ _ => (0, 0, 1)) (fun _ _ => 0)
    (fun _ _ => 0) (8, 8) 0 [] [] [[0]] [[0]] [[false]] [[false]]
    ⟨[4], [2], "symmetric", some (fun _ _ => true), false, 0⟩
    (fun _ _ => true) 4 2 0 0 rfl rfl rfl rfl rfl (by decide)
    (by decide) (by decide) (fun p q _ _ _ _ => rfl)

/-- C9: For every validity-tagged input displacement field — including one
with entries marked invalid — a pass without pixel masking returns `u` and
`v` as validity-tagged fields whose numeric data are fully populated
rational arrays of the pass's grid shape (the model is total over ℚ, so no
entry is NaN), and whose validity mask is rebuilt all-false from the pixel
mask: the input field's per-entry invalidity (here set at entry (0,0)) is
not carried into the returned field. -/
theorem pass_mask_reset (corr : Nat → Nat → ℚ × ℚ × ℚ)
    (fa fb : Nat → Nat → ℚ) (fs : Nat × Nat) (it : Nat)
    (x y : List (List ℚ)) (ud vd : List (List ℚ)) (um vm : List (List Bool))
    (s : PIVSettings)
    (hsm : s.static_mask = none) (hdyn : s.dynamic_masking = false)
    (hmeth : s.deformation_method = "symmetric")
    (hin : (um.getD 0 []).getD 0 false = true) :
    ∃ out, multipass_img_deform corr fa fb fs it x y
        (MaskedField.masked ud um) (MaskedField.masked vd vm) s = Except.ok out ∧
      out.u.isMasked = true ∧ out.v.isMasked = true ∧
      hasShape out.u.dataOf
        (get_field_shape fs (s.windowsizes.getD it 0) (s.overlap.getD it 0)) ∧
      hasShape out.v.dataOf
        (get_field_shape fs (s.windowsizes.getD it 0) (s.overlap.getD it 0)) ∧
      (∀ row ∈ out.u.maskOf, ∀ b ∈ row, b = false) ∧
      (∀ row ∈ out.v.maskOf, ∀ b ∈ row, b = false) := by
  have hpm : pixelMask s fb = none := by
    unfold pixelMask
    rw [hsm, hdyn]
  have hshape := passCore_shape corr fs (s.windowsizes.getD it 0)
    (s.overlap.getD it 0) x y ud vd (pixelMask s fb)
  refine ⟨passCore corr fs (s.windowsizes.getD it 0) (s.overlap.getD it 0)
      x y ud vd (pixelMask s fb), ?_, rfl, rfl, hshape.2.2.1, hshape.2.2.2, ?_, ?_⟩
  · simp [multipass_img_deform, hmeth]
  all_goals
    intro row hrow b hb
    simp only [passCore, MaskedField.maskOf, mkGrid, List.mem_map,
      List.mem_range] at hrow
    obtain ⟨a, _, rfl⟩ := hrow
    simp only [List.mem_map, List.mem_range] at hb
    obtain ⟨c, _, rfl⟩ := hb
    rw [hpm]

/-- Witness for C9: a one-pass setting without masking, input field masked
invalid at (0,0): the pass output is validity-tagged with an all-false
mask. -/
theorem pass_mask_reset_witness :
    ((([[true]] : List (List Bool)).getD 0 []).getD 0 false = true) ∧
    ∃ out, multipass_img_deform (fun _ _ => (0, 0, 1)) (fun _ _ => 0)
        (fun _ _ => 0) (8, 8) 0 [] []
        (MaskedField.masked [[5]] [[true]]) (MaskedField.masked [[6]] [[true]])
        ⟨[4], [2], "symmetric", none, false, 0⟩ = Except.ok out ∧
      out.u.isMasked = true ∧ out.v.isMasked = true ∧
      hasShape out.u.dataOf (get_field_shape (8, 8) 4 2) ∧
      hasShape out.v.dataOf (get_field_shape (8, 8) 4 2) ∧
      (∀ row ∈ out.u.maskOf, ∀ b ∈ row, b = false) ∧
      (∀ row ∈ out.v.maskOf, ∀ b ∈ row, b = false) :=
  ⟨by decide,
    pass_mask_reset (fun _ _ => (0, 0, 1)) (fun _ _ => 0) (fun _ _ => 0)
      (8, 8) 0 [] [] [[5]] [[6]] [[true]] [[true]]
      ⟨[4], [2], "symmetric", none, false, 0⟩ rfl rfl rfl (by decide)⟩

theorem zipWith_getD {α β γ : Type} (f : α → β → γ) (as : List α)
    (bs : List β) (da : α) (db : β) (dc : γ) (i : Nat)
    (ha : i < as.length) (hb : i < bs.length) :
    (List.zipWith f as bs).getD i dc = f (as.getD i da) (bs.getD i db) := by
  have h : i < (List.zipWith f as bs).length := by
    rw [List.length_zipWith]
    omega
  rw [getD_of_lt _ _ _ h, getD_of_lt _ _ _ ha, getD_of_lt _ _ _ hb]
  simp [List.get_eq_getElem]

/-- Modelled from the spec: apply a pixel mask to a frame, zeroing every
masked pixel. -/
def mask_image (frame : List (List ℚ)) (m : List (List Bool)) :
    List (List ℚ) :=
  List.zipWith
    (fun frow mrow => List.zipWith (fun a b => if b then 0 else a) frow mrow)
    frame m

/-- Modelled from the spec: the dynamic pixel mask computed from frame
intensity — a pixel is masked when its intensity exceeds the threshold. -/
def dynamicMaskImage (frame : List (List ℚ)) (thr : ℚ) : List (List Bool) :=
  frame.map (fun row => row.map (fun a => decide (thr < a)))

/-- Elementwise OR of two pixel masks. -/
def orMask (a b : List (List Bool)) : List (List Bool) :=
  List.zipWith (fun ra rb => List.zipWith (fun p q => p || q) ra rb) a b

/-- Modelled from the spec: the preparation settings fields —
an optional static pixel mask and the dynamic-masking option. -/
structure PrepSettings where
  static_mask : Option (List (List Bool))
  dynamic_masking_method : Bool
  dynamic_masking_threshold : ℚ

/-- Modelled from the spec: `windef.prepare_images` (its mask-building
step): with a static mask, masked pixels are zeroed in both frames and the
static mask is returned; with dynamic masking, a mask is derived from
frame intensity (OR-combined with the static mask when both are present,
and the zeroing reapplied); with neither, the frames pass through and the
pixel mask is `None`. -/
def prepare_images (fa fb : List (List ℚ)) (s : PrepSettings) :
    List (List ℚ) × List (List ℚ) × Option (List (List Bool)) :=
  match s.static_mask, s.dynamic_masking_method with
  | none, false => (fa, fb, none)
  | some m, false => (mask_image fa m, mask_image fb m, some m)
  | none, true =>
    let m := dynamicMaskImage fa s.dynamic_masking_threshold
    (mask_image fa m, mask_image fb m, some m)
  | some m0, true =>
    let m := orMask m0
      (dynamicMaskImage (mask_image fa m0) s.dynamic_masking_threshold)
    (mask_image fa m, mask_image fb m, some m)

theorem mask_image_getD (fa : List (List ℚ)) (m : List (List Bool))
    (i j : Nat) (hif : i < fa.length) (him : i < m.length)
    (hjf : j < (fa.getD i []).length) (hjm : j < (m.getD i []).length) :
    ((mask_image fa m).getD i []).getD j 0
      = (if (m.getD i []).getD j false then 0 else (fa.getD i []).getD j 0) := by
  unfold mask_image
  rw [zipWith_getD _ fa m [] [] [] i hif him,
    zipWith_getD _ _ _ 0 false 0 j hjf hjm]

/-- C8: The image-preparation mask-building step returns
`pixel_mask = None` exactly when neither static nor dynamic masking is
requested; when a static mask is supplied (and dynamic masking is off),
every pixel under the mask is zero in both returned frames and the
returned pixel mask equals the supplied static mask; when dynamic masking
is enabled a (non-`None`) boolean pixel mask is returned. -/
theorem prepare_images_masks (fa fb : List (List ℚ)) (s : PrepSettings) :
    ((prepare_images fa fb s).2.2 = none ↔
      s.static_mask = none ∧ s.dynamic_masking_method = false) ∧
    (∀ m, s.static_mask = some m → s.dynamic_masking_method = false →
      (prepare_images fa fb s).2.2 = some m ∧
      ∀ i j, i < fa.length → i < fb.length → i < m.length →
        j < (fa.getD i []).length → j < (fb.getD i []).length →
        j < (m.getD i []).length →
        (m.getD i []).getD j false = true →
        ((prepare_images fa fb s).1.getD i []).getD j 0 = 0 ∧
        (((prepare_images fa fb s).2.1.getD i []).getD j 0 = 0)) ∧
    (s.dynamic_masking_method = true →
      ∃ m, (prepare_images fa fb s).2.2 = some m) := by
  obtain ⟨sm, dm, thr⟩ := s
  cases sm with
  | none =>
    cases dm
    · refine ⟨by simp [prepare_images], ?_, ?_⟩
      · intro m hm hdm
        simp at hm
      · intro hdm
        simp at hdm
    · refine ⟨by simp [prepare_images], ?_, ?_⟩
      · intro m hm hdm
        simp at hdm
      · intro _
        exact ⟨_, rfl⟩
  | some m0 =>
    cases dm
    · refine ⟨by simp [prepare_images], ?_, ?_⟩
      swap
      · intro hdm
        simp at hdm
      intro m hm _
      have hmm : m0 = m := by
        simpa using hm
      subst hmm
      refine ⟨rfl, ?_⟩
      intro i j hif hib him hjf hjb hjm htrue
      constructor
      · rw [show (prepare_images fa fb ⟨some m0, false, thr⟩).1
            = mask_image fa m0 from rfl,
          mask_image_getD fa m0 i j hif him hjf hjm, htrue]
        simp
      · rw [show (prepare_images fa fb ⟨some m0, false, thr⟩).2.1
            = mask_image fb m0 from rfl,
          mask_image_getD fb m0 i j hib him hjb hjm, htrue]
        simp
    · refine ⟨by simp [prepare_images], ?_, ?_⟩
      · intro m hm hdm
        simp at hdm
      · intro _
        exact ⟨_, rfl⟩

/-- Witness for C8: a 1×2 frame pair with a static mask set on the first
pixel and dynamic masking off: the returned mask is the static mask and
the masked pixel is zero in both returned frames. -/
theorem prepare_images_masks_witness :
    (prepare_images [[5, 7]] [[9, 11]]
        ⟨some [[true, false]], false, 0⟩).2.2 = some [[true, false]] ∧
    ((prepare_images [[5, 7]] [[9, 11]]
        ⟨some [[true, false]], false, 0⟩).1.getD 0 []).getD 0 0 = 0 ∧
    ((prepare_images [[5, 7]] [[9, 11]]
        ⟨some [[true, false]], false, 0⟩).2.1.getD 0 []).getD 0 0 = 0 := by
  have h := (prepare_images_masks [[5, 7]] [[9, 11]]
    ⟨some [[true, false]], false, 0⟩).2.1 [[true, false]] rfl rfl
  have h2 := h.2 0 0 (by decide) (by decide) (by decide) (by decide)
    (by decide) (by decide) (by decide)
  exact ⟨h.1, h2.1, h2.2⟩

/-- The 19-term polynomial basis of
`openpiv/calibration/poly_model/_projection.py`, in source order:
`1, X, Y, Z, XY, XZ, YZ, X², Y², Z², X³, X²Y, X²Z, Y³, XY², Y²Z, XZ², YZ²,
XYZ`. -/
def polyTerms (X Y Z : ℚ) : List ℚ :=
  [1, X, Y, Z,
   X * Y, X * Z, Y * Z,
   X ^ 2, Y ^ 2, Z ^ 2,
   X ^ 3, X * X * Y, X * X * Z,
   Y ^ 3, X * Y * Y, Y * Y * Z,
   X * Z * Z, Y * Z * Z, X * Y * Z]

/-- The camera parameter structure consumed by the polynomial projection
functions: the world→image coefficient rows `poly_wi` (19 rows of 2 output
columns) and the image→world rows `poly_iw` (19 rows of 3 output columns).
`valid` models `_check_parameters` (imported from `._check_params`, a
module not in this tree), which both projection functions invoke before
computing. -/
structure CamStruct where
  poly_wi : List (ℚ × ℚ)
  poly_iw : List (ℚ × ℚ × ℚ)
  valid : Bool
deriving DecidableEq

/-- The matrix product of a polynomial-term row with a 2-column
coefficient matrix (`np.dot(polynomial_wi, cam_struct["poly_wi"])` for one
point). -/
def dot2 (terms : List ℚ) (coeff : List (ℚ × ℚ)) : ℚ × ℚ :=
  (List.zip terms coeff).foldr
    (fun p acc => (acc.1 + p.1 * p.2.1, acc.2 + p.1 * p.2.2)) (0, 0)

/-- The matrix product of a polynomial-term row with a 3-column
coefficient matrix (`np.dot(polynomial_iw, cam_struct["poly_iw"])` for one
point). -/
def dot3 (terms : List ℚ) (coeff : List (ℚ × ℚ × ℚ)) : ℚ × ℚ × ℚ :=
  (List.zip terms coeff).foldr
    (fun p acc =>
      (acc.1 + p.1 * p.2.1, acc.2.1 + p.1 * p.2.2.1, acc.2.2 + p.1 * p.2.2.2))
    (0, 0, 0)

/-- `project_points` from `_projection.py`: validate the camera structure,
then map each object point `(X, Y, Z)` through the 19-term polynomial with
the `poly_wi` coefficients, producing an image point `(x, y)`. -/
def project_points (cam : CamStruct) (objectPoints : List (ℚ × ℚ × ℚ)) :
    Except String (List (ℚ × ℚ)) :=
  if cam.valid then
    Except.ok (objectPoints.map
      (fun p => dot2 (polyTerms p.1 p.2.1 p.2.2) cam.poly_wi))
  else
    Except.error "invalid camera parameters"

/-- `project_to_z` from `_projection.py`: validate the camera structure,
then map each image point `(x, y)` paired with its target depth through
the 19-term polynomial with the `poly_iw` coefficients, producing a world
point `(X, Y, Z)` (the depth argument broadcasts per point, as in the
test's `project_to_z(params, img_points, obj_points[2])`). -/
def project_to_z (cam : CamStruct) (imagePoints : List (ℚ × ℚ))
    (z : List ℚ) : Except String (List (ℚ × ℚ × ℚ)) :=
  if cam.valid then
    Except.ok ((List.zip imagePoints z).map
      (fun q => dot3 (polyTerms q.1.1 q.1.2 q.2) cam.poly_iw))
  else
    Except.error "invalid camera parameters"

/-- The identity calibration: the forward coefficients select the `X` and
`Y` basis terms, the inverse coefficients select the `x`, `y` and `Z`
terms, so the two polynomial maps are mutually inverse. -/
def camIdentity : CamStruct where
  poly_wi :=
    [(0, 0), (1, 0), (0, 1), (0, 0),
     (0, 0), (0, 0), (0, 0),
     (0, 0), (0, 0), (0, 0),
     (0, 0), (0, 0), (0, 0),
     (0, 0), (0, 0), (0, 0),
     (0, 0), (0, 0), (0, 0)]
  poly_iw :=
    [(0, 0, 0), (1, 0, 0), (0, 1, 0), (0, 0, 1),
     (0, 0, 0), (0, 0, 0), (0, 0, 0),
     (0, 0, 0), (0, 0, 0), (0, 0, 0),
     (0, 0, 0), (0, 0, 0), (0, 0, 0),
     (0, 0, 0), (0, 0, 0), (0, 0, 0),
     (0, 0, 0), (0, 0, 0), (0, 0, 0)]
  valid := true

/-- A structurally well-formed camera whose coefficient matrices are all
zero (such a matrix has the shape `_check_parameters` accepts). -/
def camZero : CamStruct where
  poly_wi :=
    [(0, 0), (0, 0), (0, 0), (0, 0),
     (0, 0), (0, 0), (0, 0),
     (0, 0), (0, 0), (0, 0),
     (0, 0), (0, 0), (0, 0),
     (0, 0), (0, 0), (0, 0),
     (0, 0), (0, 0), (0, 0)]
  poly_iw :=
    [(0, 0, 0), (0, 0, 0), (0, 0, 0), (0, 0, 0),
     (0, 0, 0), (0, 0, 0), (0, 0, 0),
     (0, 0, 0), (0, 0, 0), (0, 0, 0),
     (0, 0, 0), (0, 0, 0), (0, 0, 0),
     (0, 0, 0), (0, 0, 0), (0, 0, 0),
     (0, 0, 0), (0, 0, 0), (0, 0, 0)]
  valid := true

/-- A camera structure that fails the parameter check. -/
def camInvalid : CamStruct where
  poly_wi := []
  poly_iw := []
  valid := false

theorem dot2_polyTerms_id (X Y Z : ℚ) :
    dot2 (polyTerms X Y Z) camIdentity.poly_wi = (X, Y) := by
  simp only [dot2, polyTerms, camIdentity, List.zip, List.zipWith, List.foldr]
  rw [Prod.mk.injEq]
  constructor <;> ring

theorem dot3_polyTerms_id (x y z : ℚ) :
    dot3 (polyTerms x y z) camIdentity.poly_iw = (x, y, z) := by
  simp only [dot3, polyTerms, camIdentity, List.zip, List.zipWith, List.foldr]
  rw [Prod.mk.injEq, Prod.mk.injEq]
  refine ⟨by ring, by ring, by ring⟩

/-- C10 counterexample: the round trip does NOT hold for every well-formed
camera structure — for the zero-coefficient camera (whose matrices have
the accepted shape) the composition `project_to_z ∘ project_points` at the
object point `(1, 1, 1)` (with its own z value) returns `(0, 0, 0)`, an
error of 1 in each world coordinate, far beyond the calibration tolerance
(the test's `decimal=2`, i.e. 10⁻²). -/
theorem polynomial_roundtrip_cex :
    (project_points camZero [(1, 1, 1)]).bind
        (fun imgPts => project_to_z camZero imgPts [1])
      = Except.ok [((0 : ℚ), (0 : ℚ), (0 : ℚ))] ∧
    ¬ |(0 : ℚ) - 1| ≤ 1 / 100 := by
  constructor
  · have h2 : dot2 (polyTerms 1 1 1) camZero.poly_wi = ((0 : ℚ), 0) := by
      simp only [dot2, polyTerms, camZero, List.zip, List.zipWith, List.foldr]
      rw [Prod.mk.injEq]
      constructor <;> norm_num
    have h3 : dot3 (polyTerms 0 0 1) camZero.poly_iw = ((0 : ℚ), 0, 0) := by
      simp only [dot3, polyTerms, camZero, List.zip, List.zipWith, List.foldr]
      rw [Prod.mk.injEq, Prod.mk.injEq]
      refine ⟨by norm_num, by norm_num, by norm_num⟩
    have hp : project_points camZero [(1, 1, 1)] = Except.ok [((0 : ℚ), 0)] := by
      simp only [project_points]
      rw [if_pos (show camZero.valid = true from rfl)]
      simp only [List.map]
      rw [h2]
    rw [hp]
    show project_to_z camZero [((0 : ℚ), 0)] [1] = Except.ok [((0 : ℚ), 0, 0)]
    simp only [project_to_z]
    rw [if_pos (show camZero.valid = true from rfl)]
    simp only [List.zip, List.zipWith, List.map]
    rw [h3]
  · norm_num

/-- C10 (amended): the polynomial projections round-trip for cameras whose
inverse coefficients invert the forward polynomial — for the identity
calibration, `project_to_z` applied to `project_points`' image points, at
the z values of the original object points, recovers every object-point
list exactly; and both functions validate the camera structure first,
returning an error and no output on a structure failing the check.  (The
round trip fails for arbitrary well-formed cameras; see the
counterexample.) -/
theorem polynomial_roundtrip (pts : List (ℚ × ℚ × ℚ)) (cam : CamStruct)
    (ip : List (ℚ × ℚ)) (z : List ℚ) (hcam : cam.valid = false) :
    (project_points camIdentity pts).bind
        (fun imgPts => project_to_z camIdentity imgPts
          (pts.map (fun p => p.2.2)))
      = Except.ok pts ∧
    project_points cam pts = Except.error "invalid camera parameters" ∧
    project_to_z cam ip z = Except.error "invalid camera parameters" := by
  refine ⟨?_, ?_, ?_⟩
  · have hfwd : project_points camIdentity pts
        = Except.ok (pts.map (fun p => ((p.1, p.2.1) : ℚ × ℚ))) := by
      simp only [project_points]
      rw [if_pos (show camIdentity.valid = true from rfl)]
      congr 1
      have hf : (fun p : ℚ × ℚ × ℚ =>
          dot2 (polyTerms p.1 p.2.1 p.2.2) camIdentity.poly_wi)
          = fun p : ℚ × ℚ × ℚ => ((p.1, p.2.1) : ℚ × ℚ) := by
        funext p
        exact dot2_polyTerms_id p.1 p.2.1 p.2.2
      rw [hf]
    rw [hfwd]
    show project_to_z camIdentity (pts.map (fun p => ((p.1, p.2.1) : ℚ × ℚ)))
      (pts.map (fun p => p.2.2)) = Except.ok pts
    simp only [project_to_z]
    rw [if_pos (show camIdentity.valid = true from rfl)]
    congr 1
    rw [List.zip_map']
    rw [List.map_map]
    have hid : ∀ p ∈ pts, ((fun q : (ℚ × ℚ) × ℚ =>
        dot3 (polyTerms q.1.1 q.1.2 q.2) camIdentity.poly_iw) ∘
        (fun p : ℚ × ℚ × ℚ => (((p.1, p.2.1) : ℚ × ℚ), p.2.2))) p = p := by
      intro p _
      simp only [Function.comp]
      rw [dot3_polyTerms_id]
    rw [List.map_congr_left hid, List.map_id']
  · simp only [project_points]
    rw [if_neg (by simp [hcam])]
  · simp only [project_to_z]
    rw [if_neg (by simp [hcam])]

/-- Witness for C10 (amended): the identity calibration round-trips the
object point `(1, 2, 3)` exactly, and the invalid camera structure is
rejected by both projection functions. -/
theorem polynomial_roundtrip_witness :
    camInvalid.valid = false ∧
    ((project_points camIdentity [((1 : ℚ), 2, 3)]).bind
        (fun imgPts => project_to_z camIdentity imgPts
          (([((1 : ℚ), 2, 3)] : List (ℚ × ℚ × ℚ)).map (fun p => p.2.2)))
      = Except.ok [((1 : ℚ), 2, 3)] ∧
    project_points camInvalid [((1 : ℚ), 2, 3)]
      = Except.error "invalid camera parameters" ∧
    project_to_z camInvalid [] [] = Except.error "invalid camera parameters") :=
  ⟨rfl, polynomial_roundtrip [(1, 2, 3)] camInvalid [] [] rfl⟩

end OpenPIV
